import Mathlib

/-!
# DepSimplify resolver and cache: a shallow embedding

This file embeds the core of `src/depsimplify/resolver.py`
(`DependencyResolver`) and `src/depsimplify/cache.py` (`DependencyCache`)
in Lean 4 and proves properties of the embedding.

Python dicts are modelled as insertion-ordered association lists with
in-place value replacement on key collision.  The PyPI index
(`requests.get` of the package JSON) is modelled as a function from
package names to `Except String PkgMeta`: an `.error cause` result models
a network or malformed-response failure with the given cause, and a
`DependencyError` raised in Python is modelled as an `Except.error`
carrying the formatted message string.  The `packaging` library's version
and specifier semantics are modelled for release-only versions
(dot-separated numeric segments, compared segment-wise with trailing-zero
padding, as PEP 440 prescribes); version strings outside this sublanguage
are unparsable, matching the code paths that skip unparsable versions.
-/

namespace DepSimplify

/-! ## Generic association lists (Python `dict` model) -/

/-- First-match lookup in an association list, as for a Python dict key. -/
def dLookup {κ α : Type} [DecidableEq κ] (k : κ) : List (κ × α) → Option α
  | [] => none
  | (k', v) :: rest => if k' = k then some v else dLookup k rest

/-- Python `d[k] = v`: replace in place if the key exists, else append. -/
def dInsert {κ α : Type} [DecidableEq κ] (k : κ) (v : α) : List (κ × α) → List (κ × α)
  | [] => [(k, v)]
  | (k', v') :: rest => if k' = k then (k', v) :: rest else (k', v') :: dInsert k v rest

/-- The keys of an association list, in order. -/
def keysOf {κ α : Type} (l : List (κ × α)) : List κ := l.map Prod.fst

/-- A Python dict never holds two entries with the same key. -/
def uniqKeys {κ α : Type} (l : List (κ × α)) : Prop := (keysOf l).Nodup

instance {κ α : Type} [DecidableEq κ] (l : List (κ × α)) : Decidable (uniqKeys l) :=
  inferInstanceAs (Decidable (keysOf l).Nodup)

section AssocLemmas

variable {κ α : Type} [DecidableEq κ]

theorem dLookup_dInsert_self (k : κ) (v : α) (l : List (κ × α)) :
    dLookup k (dInsert k v l) = some v := by
  induction l with
  | nil => simp [dLookup, dInsert]
  | cons hd tl ih =>
    obtain ⟨k', v'⟩ := hd
    by_cases h : k' = k <;> simp [dLookup, dInsert, h, ih]

theorem dLookup_dInsert_ne {k k' : κ} (h : k' ≠ k) (v : α) (l : List (κ × α)) :
    dLookup k (dInsert k' v l) = dLookup k l := by
  induction l with
  | nil => simp [dLookup, dInsert, h]
  | cons hd tl ih =>
    obtain ⟨k'', v''⟩ := hd
    by_cases h2 : k'' = k' <;> by_cases h3 : k'' = k <;>
      simp_all [dLookup, dInsert]

theorem keysOf_dInsert (k : κ) (v : α) (l : List (κ × α)) :
    keysOf (dInsert k v l) = if k ∈ keysOf l then keysOf l else keysOf l ++ [k] := by
  induction l with
  | nil => simp [dInsert, keysOf]
  | cons hd tl ih =>
    obtain ⟨k', v'⟩ := hd
    by_cases h : k' = k
    · subst h
      simp [dInsert, keysOf]
    · have hne : k ≠ k' := fun he => h he.symm
      simp only [dInsert, if_neg h, keysOf, List.map_cons] at ih ⊢
      rw [ih]
      by_cases hm : k ∈ List.map Prod.fst tl <;> simp [hm, hne]

theorem mem_keysOf_dInsert {q k : κ} (v : α) (l : List (κ × α))
    (h : q ∈ keysOf (dInsert k v l)) : q = k ∨ q ∈ keysOf l := by
  rw [keysOf_dInsert] at h
  split at h
  · exact Or.inr h
  · rcases List.mem_append.mp h with h1 | h1
    · exact Or.inr h1
    · simp at h1
      exact Or.inl h1

theorem uniqKeys_dInsert {l : List (κ × α)} (k : κ) (v : α) (h : uniqKeys l) :
    uniqKeys (dInsert k v l) := by
  unfold uniqKeys at h ⊢
  rw [keysOf_dInsert]
  split
  · exact h
  · next hk => simpa [List.nodup_append] using ⟨h, hk⟩

theorem dLookup_some_mem {k : κ} {v : α} {l : List (κ × α)}
    (h : dLookup k l = some v) : k ∈ keysOf l := by
  induction l with
  | nil => simp [dLookup] at h
  | cons hd tl ih =>
    obtain ⟨k', v'⟩ := hd
    by_cases h2 : k' = k
    · subst h2; simp [keysOf]
    · simp only [dLookup, if_neg h2] at h
      simp only [keysOf, List.map_cons]
      exact List.mem_cons.mpr (Or.inr (ih h))

theorem dLookup_of_mem_uniq {k : κ} {v : α} {l : List (κ × α)}
    (hu : uniqKeys l) (hm : (k, v) ∈ l) : dLookup k l = some v := by
  induction l with
  | nil => simp at hm
  | cons hd tl ih =>
    obtain ⟨k', v'⟩ := hd
    unfold uniqKeys keysOf at hu
    simp only [List.map_cons, List.nodup_cons] at hu
    rcases List.mem_cons.mp hm with he | hm2
    · cases he
      simp [dLookup]
    · have hk : k' ≠ k := by
        intro he
        subst he
        exact hu.1 (List.mem_map.mpr ⟨(k', v), hm2, rfl⟩)
      simp only [dLookup, if_neg hk]
      exact ih hu.2 hm2

end AssocLemmas

/-! ## Character and string constants used by the source -/

def dotC : Char := '.'

def commaC : Char := ','

def semiC : Char := ';'

def spaceC : Char := ' '

/-! ## Version model (`packaging.version.parse` on release versions) -/

/-- Strip trailing zero segments: PEP 440 pads releases with zeros, so
`1.0` and `1.0.0` denote the same version. -/
def stripZeros (l : List Nat) : List Nat := (l.reverse.dropWhile (· = 0)).reverse

/-- Lexicographic order on zero-stripped release segment lists. -/
def lexLE : List Nat → List Nat → Bool
  | [], _ => true
  | _ :: _, [] => false
  | a :: as, b :: bs => if a < b then true else if a = b then lexLE as bs else false

theorem lexLE_refl (a : List Nat) : lexLE a a = true := by
  induction a with
  | nil => rfl
  | cons x xs ih => simp [lexLE, ih]

theorem lexLE_total (a b : List Nat) : lexLE a b = true ∨ lexLE b a = true := by
  induction a generalizing b with
  | nil => exact Or.inl rfl
  | cons x xs ih =>
    cases b with
    | nil => exact Or.inr rfl
    | cons y ys =>
      rcases Nat.lt_trichotomy x y with h | h | h
      · exact Or.inl (by simp [lexLE, h])
      · subst h
        rcases ih ys with h2 | h2
        · exact Or.inl (by simp [lexLE, h2])
        · exact Or.inr (by simp [lexLE, h2])
      · exact Or.inr (by simp [lexLE, h])

theorem lexLE_trans {a b c : List Nat} (h1 : lexLE a b = true) (h2 : lexLE b c = true) :
    lexLE a c = true := by
  induction a generalizing b c with
  | nil => rfl
  | cons x xs ih =>
    cases b with
    | nil => simp [lexLE] at h1
    | cons y ys =>
      cases c with
      | nil => simp [lexLE] at h2
      | cons z zs =>
        simp only [lexLE] at h1 h2 ⊢
        split at h1
        · next hxy =>
          split at h2
          · next hyz => simp [Nat.lt_trans hxy hyz]
          · split at h2
            · next hyz => subst hyz; simp [hxy]
            · simp at h2
        · split at h1
          · next hxy =>
            subst hxy
            split at h2
            · next hyz => simp [hyz]
            · split at h2
              · next hyz => subst hyz; simp [ih h1 h2]
              · simp at h2
          · simp at h1

/-- A character string made only of decimal digits, nonempty. -/
def isNatSeg (l : List Char) : Bool := !l.isEmpty && l.all Char.isDigit

/-- Numeric value of a digit string. -/
def natOfSeg (l : List Char) : Nat := l.foldl (fun n c => n * 10 + (c.toNat - 48)) 0

/-- Split a character list on a separator character. -/
def splitOnC (sep : Char) : List Char → List (List Char)
  | [] => [[]]
  | c :: rest =>
    let r := splitOnC sep rest
    if c = sep then [] :: r
    else match r with
      | [] => [[c]]
      | p :: ps => (c :: p) :: ps

/-- Model of `packaging.version.parse` restricted to release versions:
dot-separated numeric segments, returned in zero-stripped normal form so
that version equality and order agree with PEP 440.  `none` models an
`InvalidVersion` exception. -/
def parseVersion (s : String) : Option (List Nat) :=
  let segs := splitOnC dotC s.toList
  if segs.all isNatSeg then some (stripZeros (segs.map natOfSeg)) else none

/-- The sort key `packaging.version.parse` induces on a version string
(`[]`, the smallest key, for unparsable strings, which never reach the
sort in the source). -/
def verKey (s : String) : List Nat := (parseVersion s).getD []

/-- `a` sorts at or before `b` in newest-first order. -/
def verGE (a b : String) : Bool := lexLE (verKey b) (verKey a)

/-! ## Specifier model (`packaging.specifiers.SpecifierSet`) -/

/-- Comparison operators of the modelled specifier sublanguage. -/
inductive SpecOp : Type
  | opEQ | opNE | opGE | opLE | opGT | opLT
deriving DecidableEq

/-- `true` when `pat` is a leading segment of `l`. -/
def isPre : List Char → List Char → Bool
  | [], _ => true
  | _ :: _, [] => false
  | a :: as, b :: bs => a = b && isPre as bs

/-- Whitespace trimming (Python `str.strip`, space characters). -/
def trimC (l : List Char) : List Char :=
  ((l.dropWhile (· = spaceC)).reverse.dropWhile (· = spaceC)).reverse

def geOp : List Char := ['>', '=']

def leOp : List Char := ['<', '=']

def eqOp : List Char := ['=', '=']

def neOp : List Char := ['!', '=']

def gtOp : List Char := ['>']

def ltOp : List Char := ['<']

/-- Parse one specifier clause (e.g. `>=2.25.0`).  `none` models
`InvalidSpecifier`; operators outside the modelled sublanguage are
unparsable. -/
def parseSpec (s : String) : Option (SpecOp × List Nat) :=
  let t := trimC s.toList
  let tryOp : List Char → SpecOp → Option (SpecOp × List Nat) := fun op o =>
    if isPre op t then
      (parseVersion (String.mk (trimC (t.drop op.length)))).map (fun v => (o, v))
    else none
  (tryOp geOp SpecOp.opGE).orElse fun _ =>
  (tryOp leOp SpecOp.opLE).orElse fun _ =>
  (tryOp eqOp SpecOp.opEQ).orElse fun _ =>
  (tryOp neOp SpecOp.opNE).orElse fun _ =>
  (tryOp gtOp SpecOp.opGT).orElse fun _ =>
  tryOp ltOp SpecOp.opLT

/-- Does version `v` satisfy one clause?  All comparisons are PEP 440
padded comparisons on normalised release segments. -/
def specHolds (c : SpecOp × List Nat) (v : List Nat) : Bool :=
  match c.1 with
  | SpecOp.opEQ => v = c.2
  | SpecOp.opNE => v ≠ c.2
  | SpecOp.opGE => lexLE c.2 v
  | SpecOp.opLE => lexLE v c.2
  | SpecOp.opGT => !lexLE v c.2
  | SpecOp.opLT => !lexLE c.2 v

/-- Model of `SpecifierSet(','.join(specs))`: the joined string is split
back on commas, blank pieces are dropped, and every remaining clause must
parse, else the whole construction fails (`InvalidSpecifier`). -/
def parseSpecSet (specs : List String) : Option (List (SpecOp × List Nat)) :=
  let pieces := (splitOnC commaC (String.intercalate (String.mk [commaC]) specs).toList).map
    (fun p => String.mk (trimC p))
  let clauses := pieces.filter (fun p => p ≠ "")
  if clauses.all (fun c => (parseSpec c).isSome) then
    some (clauses.filterMap parseSpec)
  else none

/-- `DependencyResolver._check_version_compatibility`: the subset of
`versions` (kept in input order; the Python set contains the same
strings) that satisfy every clause of the joined specifier set.  Any
failure — empty inputs, an unparsable specifier set — yields the empty
set; unparsable version strings are skipped. -/
def checkVersionCompatibility (versions : List String) (specs : List String) : List String :=
  if versions = [] ∨ specs = [] then []
  else match parseSpecSet specs with
    | none => []
    | some ss =>
      versions.filter (fun v =>
        match parseVersion v with
        | none => false
        | some pv => ss.all (fun c => specHolds c pv))

/-! ## Metadata gateway model -/

/-- The fields of the PyPI JSON that the resolver reads: the keys of the
`releases` dict (in order) and `info.requires_dist`. -/
structure PkgMeta : Type where
  releases : List String
  requiresDist : List String
deriving DecidableEq

/-- The remote index: `.error cause` models a network or
malformed-response failure for that package. -/
abbrev Index : Type := String → Except String PkgMeta

def emptyNameMsg : String := "Package name cannot be empty"

def fetchFailPre : String := "Failed to fetch metadata for "

def colonSep : String := ": "

/-- The message of the `DependencyError` raised by
`_get_package_metadata`, carrying the package name and the cause. -/
def mkFetchMsg (package cause : String) : String := fetchFailPre ++ package ++ colonSep ++ cause

/-- `DependencyResolver._get_package_metadata`: rejects the empty name,
re-raises network failures as `DependencyError` messages naming the
package, and returns the metadata otherwise. -/
def fetchMetadata (idx : Index) (package : String) : Except String PkgMeta :=
  if package = "" then Except.error emptyNameMsg
  else match idx package with
    | Except.error cause => Except.error (mkFetchMsg package cause)
    | Except.ok m => Except.ok m

/-! ## Requirement parsing and `_get_package_dependencies` -/

/-- `true` when `pat` occurs as a contiguous substring. -/
def containsSub (pat : List Char) : List Char → Bool
  | [] => isPre pat []
  | c :: rest => isPre pat (c :: rest) || containsSub pat rest

def extraMark : String := "extra =="

/-- The marker-stripping step of `_get_package_dependencies`: when a `;`
is present the requirement is cut at the first `;` and stripped,
otherwise it is left untouched. -/
def reqBase (r : String) : String :=
  match splitOnC semiC r.toList with
  | [] => r
  | [_] => r
  | p :: _ :: _ => String.mk (trimC p)

/-- Characters `packaging` allows in a project name (plus separators). -/
def isNameChar (c : Char) : Bool := c.isAlphanum || c = '-' || c = '_' || c = dotC

/-- Render of `str(spec)`: the clause with whitespace removed. -/
def despace (s : String) : String := String.mk (s.toList.filter (fun c => c ≠ spaceC))

/-- Model of `packaging.requirements.Requirement` on the
name-plus-specifier sublanguage: the leading name, then a comma-separated
specifier set.  `none` models `InvalidRequirement` (the source skips such
entries). -/
def parseRequirement (s : String) : Option (String × List String) :=
  let t := trimC s.toList
  let name := String.mk (t.takeWhile isNameChar)
  let rest := trimC (t.dropWhile isNameChar)
  if name = "" then none
  else if rest.isEmpty then some (name, [])
  else
    let clauses := ((splitOnC commaC rest).map (fun p => String.mk (trimC p))).filter
      (fun p => p ≠ "")
    if clauses = [] then none
    else if clauses.all (fun c => (parseSpec c).isSome) then
      some (name, clauses.map despace)
    else none

/-- The resolution request and declared-dependency maps:
package name to constraint-clause list. -/
abbrev DepMap : Type := List (String × List String)

/-- `DependencyResolver._get_package_dependencies`: reads
`info.requires_dist`, cuts each entry at `;`, skips entries that are
empty or still contain `extra ==` after the cut, parses the rest as a
requirement and keeps only requirements with a nonempty specifier.  Every
`DependencyError` (in particular a metadata fetch failure) is caught and
the empty map returned. -/
def getPackageDependencies (idx : Index) (package : String) : DepMap :=
  if package = "" then []
  else match fetchMetadata idx package with
    | Except.error _ => []
    | Except.ok m =>
      m.requiresDist.foldl (fun deps r =>
        if r = "" then deps
        else
          let base := reqBase r
          if base = "" then deps
          else if containsSub extraMark.toList base.toList then deps
          else match parseRequirement base with
            | none => deps
            | some (name, specs) => if specs = [] then deps else dInsert name specs deps) []

/-! ## Conflict report shapes -/

/-- A value inside one package's conflict record: `'error'` entries hold
message strings, all other entries hold constraint lists. -/
inductive CVal : Type
  | s (msg : String)
  | l (specs : List String)
deriving DecidableEq

/-- One package's conflict record (`conflicts[pkg]` in the source). -/
abbrev CRec : Type := List (String × CVal)

/-- The conflict report returned by `find_conflicts`. -/
abbrev Report : Type := List (String × CRec)

def errorKeyS : String := "error"

def directKeyS : String := "direct"

def noReleasesMsg : String := "No releases available"

/-! ## `find_conflicts`, pass 1 -/

/-- Outcome of the direct-compatibility pass for one request entry. -/
inductive P1Res : Type
  | skip
  | err (msg : String)
  | direct
  | retain (trans : DepMap)

/-- The branch ladder of the first pass of `find_conflicts` for a single
`(pkg, specs)` request entry, in source order: skip blank entries, record
fetch failures and empty release sets as `error` entries, record an empty
compatible set as a `direct` conflict, and otherwise retain the package
together with its declared dependencies when it has any. -/
def pass1Classify (idx : Index) (pkg : String) (specs : List String) : P1Res :=
  if pkg = "" ∨ specs = [] then P1Res.skip
  else match fetchMetadata idx pkg with
    | Except.error e => P1Res.err e
    | Except.ok m =>
      if m.releases = [] then P1Res.err noReleasesMsg
      else if checkVersionCompatibility m.releases specs = [] then P1Res.direct
      else
        let trans := getPackageDependencies idx pkg
        if trans = [] then P1Res.skip else P1Res.retain trans

/-- Entries of `dep_graph`: retained package, its request constraints,
its declared dependencies. -/
abbrev GraphEntry : Type := String × List String × DepMap

/-- One step of pass 1 over the accumulating `(conflicts, dep_graph)`
state. -/
def pass1Step (idx : Index) (st : Report × List GraphEntry) (e : String × List String) :
    Report × List GraphEntry :=
  match pass1Classify idx e.1 e.2 with
  | P1Res.skip => st
  | P1Res.err m => (dInsert e.1 [(errorKeyS, CVal.s m)] st.1, st.2)
  | P1Res.direct => (dInsert e.1 [(directKeyS, CVal.l e.2)] st.1, st.2)
  | P1Res.retain t => (st.1, st.2 ++ [(e.1, e.2, t)])

/-- Pass 1 of `find_conflicts`. -/
def pass1 (idx : Index) (deps : DepMap) : Report × List GraphEntry :=
  deps.foldl (pass1Step idx) ([], [])

/-- The `dep_graph` entry pass 1 produces for a request entry, if any. -/
def graphEntry (idx : Index) (e : String × List String) : Option GraphEntry :=
  match pass1Classify idx e.1 e.2 with
  | P1Res.retain t => some (e.1, e.2, t)
  | _ => none

/-! ## `find_conflicts`, pass 2 -/

/-- `conflicts.setdefault(dn, {})[k] = v`: the write shape of pass 2. -/
def dUpdateRec (dn k : String) (v : CVal) (conf : Report) : Report :=
  dInsert dn (dInsert k v ((dLookup dn conf).getD [])) conf

/-- Outcome of the cross-compatibility pass for one declared dependency. -/
inductive P2Res : Type
  | skip
  | errW (msg : String)
  | pinNoRel
  | pin

/-- The branch ladder of the second pass of `find_conflicts` for a
declared dependency `(depName, depSpecs)` of a retained package, in
source order: only direct-request packages are checked; a fetch failure
becomes an `error` write; an empty release set pins
`['No releases available']`; and disjoint (or empty) compatible sets pin
the declared constraints. -/
def pass2Classify (idx : Index) (deps : DepMap) (depName : String) (depSpecs : List String) :
    P2Res :=
  if depName = "" ∨ depSpecs = [] then P2Res.skip
  else match dLookup depName deps with
    | none => P2Res.skip
    | some directSpecs =>
      if directSpecs = [] then P2Res.skip
      else match fetchMetadata idx depName with
        | Except.error e => P2Res.errW e
        | Except.ok m =>
          if m.releases = [] then P2Res.pinNoRel
          else
            let dc := checkVersionCompatibility m.releases directSpecs
            let tc := checkVersionCompatibility m.releases depSpecs
            if dc = [] ∨ tc = [] ∨ dc.filter (fun v => tc.contains v) = [] then P2Res.pin
            else P2Res.skip

/-- One step of pass 2: `pkg` is the retained package whose declared
dependency `e` is being checked. -/
def pass2Inner (idx : Index) (deps : DepMap) (pkg : String) (conf : Report)
    (e : String × List String) : Report :=
  match pass2Classify idx deps e.1 e.2 with
  | P2Res.skip => conf
  | P2Res.errW m => dUpdateRec e.1 errorKeyS (CVal.s m) conf
  | P2Res.pinNoRel => dUpdateRec e.1 pkg (CVal.l [noReleasesMsg]) conf
  | P2Res.pin => dUpdateRec e.1 pkg (CVal.l e.2) conf

/-- Pass 2 of `find_conflicts` over the retained graph. -/
def pass2 (idx : Index) (deps : DepMap) (st : Report × List GraphEntry) : Report :=
  st.2.foldl (fun conf ge =>
    if ge.1 = "" then conf
    else ge.2.2.foldl (pass2Inner idx deps ge.1) conf) st.1

/-- Both passes of `find_conflicts`, starting from empty state (the path
taken on a cache miss). -/
def findConflictsCore (idx : Index) (deps : DepMap) : Report :=
  pass2 idx deps (pass1 idx deps)

/-- `DependencyResolver.find_conflicts`, with the value the cache lookup
returned passed in explicitly; a cached falsy (empty) report falls
through to the fresh computation, as in the source. -/
def findConflicts (idx : Index) (cached : Option Report) (deps : DepMap) : Report :=
  if deps = [] then []
  else match cached with
    | some (e :: r) => e :: r
    | _ => findConflictsCore idx deps

/-! ## `get_compatible_versions` -/

/-- Newest-first stable insertion, comparing parsed versions
(`sorted(key=parse, reverse=True)`). -/
def insertDesc (x : String) : List String → List String
  | [] => [x]
  | y :: ys => if verGE y x then y :: insertDesc x ys else x :: y :: ys

/-- Newest-first stable sort of version strings. -/
def sortDescV (l : List String) : List String :=
  l.foldl (fun acc x => insertDesc x acc) []

def invalidConflictMsg : String := "Invalid conflict data"

def noSpecsMsg : String := "No valid version specifications found in conflict data"

def noReleasesFoundPre : String := "No releases found for package: "

/-- The flat conjunctive constraint list `get_compatible_versions`
collects from a conflict record, dropping blank strings. -/
def collectSpecs (conflict : DepMap) : List String :=
  conflict.foldl (fun acc kv => acc ++ kv.2.filter (fun sp => sp ≠ "")) []

/-- `DependencyResolver.get_compatible_versions`, with the cached value
passed in explicitly.  `Except.error` models a raised `DependencyError`;
fetch failures propagate, unlike in `find_conflicts`. -/
def getCompatibleVersions (idx : Index) (cached : Option (List String)) (package : String)
    (conflict : DepMap) : Except String (List String) :=
  if package = "" then Except.error emptyNameMsg
  else if conflict = [] then Except.error invalidConflictMsg
  else match cached with
    | some (v :: vs) => Except.ok (v :: vs)
    | _ =>
      match fetchMetadata idx package with
      | Except.error e => Except.error e
      | Except.ok m =>
        if m.releases = [] then Except.error (noReleasesFoundPre ++ package)
        else
          let specs := collectSpecs conflict
          if specs = [] then Except.error noSpecsMsg
          else
            let compatible := checkVersionCompatibility m.releases specs
            if compatible = [] then Except.ok []
            else Except.ok ((sortDescV compatible).take 5)

/-! ## The SQLite result cache (`DependencyCache`) -/

/-- Seconds in the 1-day expiry window (`timedelta(days=1)`). -/
def cacheExpiry : Int := 86400

/-- String order on the character codes, for `json.dumps(sort_keys=True)`. -/
def strLE (a b : String) : Bool :=
  let rec go : List Char → List Char → Bool
    | [], _ => true
    | _ :: _, [] => false
    | c :: cs, d :: ds => if c.toNat < d.toNat then true
        else if c.toNat = d.toNat then go cs ds else false
  go a.toList b.toList

def insertByKey (x : String × List String) : DepMap → DepMap
  | [] => [x]
  | y :: ys => if strLE x.1 y.1 then x :: y :: ys else y :: insertByKey x ys

/-- The canonical, order-independent request key
(`json.dumps(dependencies, sort_keys=True)`), modelled as the request
sorted by key: `json.dumps` is injective on sorted maps, so key equality
agrees. -/
def canonKey (deps : DepMap) : DepMap :=
  deps.foldl (fun acc kv => insertByKey kv acc) []

/-- The `conflicts` table: canonical key, stored report (JSON
round-trips on these values, so the serialised text is modelled by the
report itself), timestamp. -/
structure CacheState : Type where
  conflictsTbl : List (DepMap × Report × Int)

/-- `DependencyCache.store_conflicts` at wall-clock time `now`: falsy
(empty) requests or reports are not stored; otherwise
`INSERT OR REPLACE` under the canonical key. -/
def storeConflicts (now : Int) (deps : DepMap) (report : Report) (st : CacheState) :
    CacheState :=
  if deps = [] ∨ report = [] then st
  else { conflictsTbl := dInsert (canonKey deps) (report, now) st.conflictsTbl }

/-- `DependencyCache.get_conflicts` at wall-clock time `now`: falsy
requests and absent or expired rows give `none`. -/
def getConflictsCache (now : Int) (deps : DepMap) (st : CacheState) : Option Report :=
  if deps = [] then none
  else match dLookup (canonKey deps) st.conflictsTbl with
    | none => none
    | some (rep, t) => if now - t ≤ cacheExpiry then some rep else none

/-! ## Pass-1 structure lemmas -/

/-- The conflict record pass 1 writes for an entry, if any. -/
def conflictOfRes (r : P1Res) (specs : List String) : Option CRec :=
  match r with
  | P1Res.err m => some [(errorKeyS, CVal.s m)]
  | P1Res.direct => some [(directKeyS, CVal.l specs)]
  | _ => none

theorem pass1_foldl_fst_skip {idx : Index} {q : String} :
    ∀ (l : DepMap) (st : Report × List GraphEntry), (∀ e ∈ l, e.1 ≠ q) →
      dLookup q (List.foldl (pass1Step idx) st l).1 = dLookup q st.1 := by
  intro l
  induction l with
  | nil => intro st _; rfl
  | cons e tl ih =>
    intro st h
    rw [List.foldl_cons, ih _ (fun x hx => h x (List.mem_cons_of_mem e hx))]
    have he : e.1 ≠ q := h e (List.mem_cons_self e tl)
    rcases hc : pass1Classify idx e.1 e.2 <;>
      simp [pass1Step, hc, dLookup_dInsert_ne he]

theorem pass1_foldl_snd {idx : Index} :
    ∀ (l : DepMap) (st : Report × List GraphEntry),
      (List.foldl (pass1Step idx) st l).2 = st.2 ++ l.filterMap (graphEntry idx) := by
  intro l
  induction l with
  | nil => intro st; simp
  | cons e tl ih =>
    intro st
    rw [List.foldl_cons, ih]
    rcases hc : pass1Classify idx e.1 e.2 <;>
      simp [pass1Step, graphEntry, hc]

/-- The `dep_graph` pass 1 builds, entry by entry. -/
theorem pass1_graph (idx : Index) (deps : DepMap) :
    (pass1 idx deps).2 = deps.filterMap (graphEntry idx) := by
  unfold pass1
  rw [pass1_foldl_snd]
  rfl

theorem graphEntry_eq_some {idx : Index} {e : String × List String} {ge : GraphEntry}
    (h : graphEntry idx e = some ge) :
    ge.1 = e.1 ∧ ge.2.1 = e.2 ∧ pass1Classify idx e.1 e.2 = P1Res.retain ge.2.2 := by
  unfold graphEntry at h
  rcases hc : pass1Classify idx e.1 e.2 with _ | m | _ | t <;> rw [hc] at h
  · exact absurd h (by simp)
  · exact absurd h (by simp)
  · exact absurd h (by simp)
  · simp only [Option.some.injEq] at h
    subst h
    exact ⟨rfl, rfl, rfl⟩

theorem graphKeys_sub {idx : Index} {l : DepMap} {q : String}
    (h : q ∈ keysOf (l.filterMap (graphEntry idx))) : q ∈ keysOf l := by
  unfold keysOf at h ⊢
  rcases List.mem_map.mp h with ⟨ge, hge, hq⟩
  rcases List.mem_filterMap.mp hge with ⟨e, he, hsome⟩
  subst hq
  rw [(graphEntry_eq_some hsome).1]
  exact List.mem_map.mpr ⟨e, he, rfl⟩

theorem graphKeys_uniq {idx : Index} :
    ∀ {l : DepMap}, uniqKeys l → uniqKeys (l.filterMap (graphEntry idx)) := by
  intro l
  induction l with
  | nil => intro _; simp [uniqKeys, keysOf]
  | cons e tl ih =>
    intro h
    unfold uniqKeys keysOf at h
    simp only [List.map_cons, List.nodup_cons] at h
    rcases hge : graphEntry idx e with _ | ge
    · simpa [List.filterMap_cons, hge] using ih h.2
    · unfold uniqKeys keysOf
      simp only [List.filterMap_cons, hge, List.map_cons, List.nodup_cons]
      refine ⟨fun hc => ?_, ih h.2⟩
      have : ge.1 ∈ keysOf tl := graphKeys_sub hc
      rw [(graphEntry_eq_some hge).1] at this
      exact h.1 this

/-- What pass 1 leaves in `conflicts` for a request entry, classified by
its branch. -/
theorem pass1_conflicts_lookup {idx : Index} {deps : DepMap} {q : String}
    {specs : List String} (hu : uniqKeys deps) (hm : (q, specs) ∈ deps) :
    dLookup q (pass1 idx deps).1 = conflictOfRes (pass1Classify idx q specs) specs := by
  rcases List.append_of_mem hm with ⟨pre, post, rfl⟩
  have hk : keysOf (pre ++ (q, specs) :: post) = keysOf pre ++ q :: keysOf post := by
    simp [keysOf]
  unfold uniqKeys at hu
  rw [hk] at hu
  rw [List.nodup_append] at hu
  obtain ⟨_, hqpost, hdisj⟩ := hu
  rw [List.nodup_cons] at hqpost
  have hpre : ∀ e ∈ pre, e.1 ≠ q := by
    intro e he hc
    exact hdisj (hc ▸ List.mem_map.mpr ⟨e, he, rfl⟩) (List.mem_cons_self _ _)
  have hpost : ∀ e ∈ post, e.1 ≠ q := by
    intro e he hc
    exact hqpost.1 (hc ▸ List.mem_map.mpr ⟨e, he, rfl⟩)
  unfold pass1
  rw [List.foldl_append, List.foldl_cons]
  rw [pass1_foldl_fst_skip post _ hpost]
  have hbase : dLookup q (List.foldl (pass1Step idx) ([], []) pre).1 = none :=
    pass1_foldl_fst_skip pre _ hpre
  rcases hc : pass1Classify idx q specs <;>
    simp [pass1Step, hc, conflictOfRes, dLookup_dInsert_self, hbase]

/-! ## Pass-2 structure lemmas -/

/-- `conflicts[dn][k]`, the nested lookup the claims talk about. -/
def lookupPair (dn k : String) (conf : Report) : Option CVal :=
  match dLookup dn conf with
  | none => none
  | some r => dLookup k r

theorem lookupPair_dUpdateRec_self (dn k : String) (v : CVal) (conf : Report) :
    lookupPair dn k (dUpdateRec dn k v conf) = some v := by
  unfold lookupPair dUpdateRec
  rw [dLookup_dInsert_self]
  exact dLookup_dInsert_self _ _ _

theorem lookupPair_dUpdateRec_ne1 {dn' dn : String} (h : dn' ≠ dn) (k k' : String)
    (v : CVal) (conf : Report) :
    lookupPair dn k (dUpdateRec dn' k' v conf) = lookupPair dn k conf := by
  unfold lookupPair dUpdateRec
  rw [dLookup_dInsert_ne h]

theorem lookupPair_dUpdateRec_ne2 {k' k : String} (h : k' ≠ k) (dn : String)
    (v : CVal) (conf : Report) :
    lookupPair dn k (dUpdateRec dn k' v conf) = lookupPair dn k conf := by
  unfold lookupPair dUpdateRec
  rw [dLookup_dInsert_self]
  show dLookup k (dInsert k' v ((dLookup dn conf).getD [])) = _
  rw [dLookup_dInsert_ne h]
  cases hl : dLookup dn conf <;> simp [hl, dLookup]

theorem pass2Classify_errW_fetch {idx : Index} {deps : DepMap} {dn : String}
    {sp : List String} {msg : String}
    (h : pass2Classify idx deps dn sp = P2Res.errW msg) :
    fetchMetadata idx dn = Except.error msg := by
  unfold pass2Classify at h
  rcases hf : fetchMetadata idx dn with e | m <;> rw [hf] at h <;> dsimp only at h
  · split at h
    · simp at h
    · split at h
      · simp at h
      · split at h
        · simp at h
        · simp only [P2Res.errW.injEq] at h
          rw [h]
  · split at h
    · simp at h
    · split at h
      · simp at h
      · split at h
        · simp at h
        · split at h
          · simp at h
          · split at h <;> simp at h

/-- A pass-2 step for a dependency entry `e` leaves `conflicts[dn][k]`
unchanged, provided that when `e` names `dn` itself, the fetch for `dn`
succeeds (ruling out the `error` write) and the retained package is not
`k` (ruling out an overwrite of `k`'s pin). -/
theorem pass2Inner_preserve {idx : Index} {deps : DepMap} {pkg dn k : String}
    {conf : Report} {e : String × List String}
    (h : e.1 = dn → pkg ≠ k ∧ ∃ m, fetchMetadata idx dn = Except.ok m) :
    lookupPair dn k (pass2Inner idx deps pkg conf e) = lookupPair dn k conf := by
  by_cases he : e.1 = dn
  · obtain ⟨hpk, m, hm⟩ := h he
    rcases hc : pass2Classify idx deps e.1 e.2 with _ | msg | _ | _
    · simp [pass2Inner, hc]
    · have := pass2Classify_errW_fetch hc
      rw [he] at this
      rw [this] at hm
      exact absurd hm (by simp)
    · simp only [pass2Inner, hc]
      rw [he]
      exact lookupPair_dUpdateRec_ne2 hpk _ _ _
    · simp only [pass2Inner, hc]
      rw [he]
      exact lookupPair_dUpdateRec_ne2 hpk _ _ _
  · rcases hc : pass2Classify idx deps e.1 e.2 <;>
      simp [pass2Inner, hc, lookupPair_dUpdateRec_ne1 he]

theorem foldl_pass2Inner_preserve {idx : Index} {deps : DepMap} {pkg dn k : String} :
    ∀ (es : DepMap) (conf : Report),
      (∀ e ∈ es, e.1 = dn → pkg ≠ k ∧ ∃ m, fetchMetadata idx dn = Except.ok m) →
      lookupPair dn k (es.foldl (pass2Inner idx deps pkg) conf) = lookupPair dn k conf := by
  intro es
  induction es with
  | nil => intro conf _; rfl
  | cons e tl ih =>
    intro conf h
    rw [List.foldl_cons, ih _ (fun x hx => h x (List.mem_cons_of_mem e hx))]
    exact pass2Inner_preserve (h e (List.mem_cons_self e tl))

theorem pass2_foldl_preserve {idx : Index} {deps : DepMap} {dn k : String}
    (hfetch : ∃ m, fetchMetadata idx dn = Except.ok m) :
    ∀ (gl : List GraphEntry) (conf : Report), (∀ ge ∈ gl, ge.1 ≠ k) →
      lookupPair dn k (gl.foldl (fun conf' ge =>
        if ge.1 = "" then conf' else ge.2.2.foldl (pass2Inner idx deps ge.1) conf') conf) =
      lookupPair dn k conf := by
  intro gl
  induction gl with
  | nil => intro conf _; rfl
  | cons ge tl ih =>
    intro conf h
    rw [List.foldl_cons, ih _ (fun x hx => h x (List.mem_cons_of_mem ge hx))]
    by_cases hg : ge.1 = ""
    · rw [if_pos hg]
    · rw [if_neg hg]
      exact foldl_pass2Inner_preserve _ _
        (fun e _ _ => ⟨h ge (List.mem_cons_self ge tl), hfetch⟩)

theorem uniqKeys_split {κ α : Type} [DecidableEq κ] {l : List (κ × α)} {x : κ × α}
    (hu : uniqKeys l) (hm : x ∈ l) :
    ∃ pre post, l = pre ++ x :: post ∧ (∀ y ∈ pre, y.1 ≠ x.1) ∧ (∀ y ∈ post, y.1 ≠ x.1) := by
  rcases List.append_of_mem hm with ⟨pre, post, rfl⟩
  refine ⟨pre, post, rfl, ?_, ?_⟩
  · intro y hy hc
    unfold uniqKeys keysOf at hu
    rw [List.map_append, List.nodup_append] at hu
    exact hu.2.2 (List.mem_map.mpr ⟨y, hy, rfl⟩) (by simp [hc])
  · intro y hy hc
    unfold uniqKeys keysOf at hu
    rw [List.map_append, List.nodup_append] at hu
    have := hu.2.1
    rw [List.map_cons, List.nodup_cons] at this
    exact this.1 (hc ▸ List.mem_map.mpr ⟨y, hy, rfl⟩)

theorem foldl_uniqKeys {β : Type} {f : DepMap → β → DepMap}
    (hf : ∀ acc b, uniqKeys acc → uniqKeys (f acc b)) :
    ∀ (l : List β) (acc : DepMap), uniqKeys acc → uniqKeys (List.foldl f acc l) := by
  intro l
  induction l with
  | nil => intro acc h; exact h
  | cons b tl ih => intro acc h; exact ih _ (hf acc b h)

/-- `_get_package_dependencies` returns a genuine dict: unique keys. -/
theorem getPackageDependencies_uniq (idx : Index) (p : String) :
    uniqKeys (getPackageDependencies idx p) := by
  have hnil : uniqKeys ([] : DepMap) := by simp [uniqKeys, keysOf]
  unfold getPackageDependencies
  split
  · exact hnil
  · split
    · exact hnil
    · refine foldl_uniqKeys ?_ _ _ hnil
      intro acc r h
      dsimp only
      split
      · exact h
      · split
        · exact h
        · split
          · exact h
          · split
            · exact h
            · split
              · exact h
              · exact uniqKeys_dInsert _ _ h

/-- The conditions under which pass 1 retains a package. -/
theorem pass1Classify_retain {idx : Index} {pkg : String} {pspecs : List String}
    {mP : PkgMeta} (h1 : pkg ≠ "") (h2 : pspecs ≠ [])
    (h5 : fetchMetadata idx pkg = Except.ok mP) (h6 : mP.releases ≠ [])
    (h7 : checkVersionCompatibility mP.releases pspecs ≠ [])
    (h8 : getPackageDependencies idx pkg ≠ []) :
    pass1Classify idx pkg pspecs = P1Res.retain (getPackageDependencies idx pkg) := by
  unfold pass1Classify
  rw [if_neg (by simp [h1, h2]), h5]
  dsimp only
  rw [if_neg h6, if_neg h7, if_neg h8]

/-- The conditions under which pass 2 pins the declared constraints. -/
theorem pass2Classify_pin {idx : Index} {deps : DepMap} {depName : String}
    {depSpecs dspecs : List String} {mD : PkgMeta}
    (h1 : depName ≠ "") (h2 : depSpecs ≠ [])
    (h3 : dLookup depName deps = some dspecs) (h4 : dspecs ≠ [])
    (h5 : fetchMetadata idx depName = Except.ok mD) (h6 : mD.releases ≠ [])
    (h7 : checkVersionCompatibility mD.releases dspecs = [] ∨
          checkVersionCompatibility mD.releases depSpecs = [] ∨
          (checkVersionCompatibility mD.releases dspecs).filter
            (fun v => (checkVersionCompatibility mD.releases depSpecs).contains v) = []) :
    pass2Classify idx deps depName depSpecs = P2Res.pin := by
  unfold pass2Classify
  rw [if_neg (by simp [h1, h2]), h3]
  dsimp only
  rw [if_neg h4, h5]
  dsimp only
  rw [if_neg h6, if_pos h7]

theorem pass1Classify_fetchErr {idx : Index} {pkg cause : String} {specs : List String}
    (h1 : pkg ≠ "") (h2 : specs ≠ []) (hidx : idx pkg = Except.error cause) :
    pass1Classify idx pkg specs = P1Res.err (mkFetchMsg pkg cause) := by
  unfold pass1Classify fetchMetadata
  rw [if_neg (by simp [h1, h2]), if_neg h1, hidx]

theorem pass1Classify_norel {idx : Index} {pkg : String} {specs : List String} {m : PkgMeta}
    (h1 : pkg ≠ "") (h2 : specs ≠ []) (h5 : fetchMetadata idx pkg = Except.ok m)
    (h6 : m.releases = []) :
    pass1Classify idx pkg specs = P1Res.err noReleasesMsg := by
  unfold pass1Classify
  rw [if_neg (by simp [h1, h2]), h5]
  dsimp only
  rw [if_pos h6]

theorem pass1Classify_direct {idx : Index} {pkg : String} {specs : List String} {m : PkgMeta}
    (h1 : pkg ≠ "") (h2 : specs ≠ []) (h5 : fetchMetadata idx pkg = Except.ok m)
    (h6 : m.releases ≠ []) (h7 : checkVersionCompatibility m.releases specs = []) :
    pass1Classify idx pkg specs = P1Res.direct := by
  unfold pass1Classify
  rw [if_neg (by simp [h1, h2]), h5]
  dsimp only
  rw [if_neg h6, if_pos h7]

/-- `find_conflicts` with an empty cache runs both passes. -/
theorem findConflicts_none (idx : Index) (deps : DepMap) :
    findConflicts idx none deps = findConflictsCore idx deps := by
  unfold findConflicts
  split
  · next h =>
    subst h
    rfl
  · rfl

/-- A pass-1 `error` or `direct` record for a request entry survives to
the final report as long as the entry's own fetch succeeds (so pass 2
cannot write an `error` under it) and no request package bears the
record's inner key (so pass 2 cannot overwrite that inner key). -/
theorem findConflicts_pass1_entry {idx : Index} {deps : DepMap} {p k : String}
    {specs : List String} {r0 : CRec} {v : CVal}
    (hu : uniqKeys deps) (hmem : (p, specs) ∈ deps)
    (hrec : conflictOfRes (pass1Classify idx p specs) specs = some r0)
    (hkr : dLookup k r0 = some v)
    (hfetch : ∃ m, fetchMetadata idx p = Except.ok m)
    (hk : k ∉ keysOf deps) :
    lookupPair p k (findConflicts idx none deps) = some v := by
  rw [findConflicts_none]
  unfold findConflictsCore pass2
  rw [pass1_graph]
  rw [pass2_foldl_preserve hfetch _ _ ?hkg]
  case hkg =>
    intro ge hge hc
    have : ge.1 ∈ keysOf deps := graphKeys_sub (List.mem_map.mpr ⟨ge, hge, rfl⟩)
    rw [hc] at this
    exact hk this
  unfold lookupPair
  rw [pass1_conflicts_lookup hu hmem, hrec]
  exact hkr

/-! ## Sort lemmas for `get_compatible_versions` -/

theorem verGE_total (a b : String) : verGE a b = true ∨ verGE b a = true :=
  (lexLE_total (verKey b) (verKey a)).imp (fun h => h) (fun h => h)

theorem verGE_trans {a b c : String} (h1 : verGE a b = true) (h2 : verGE b c = true) :
    verGE a c = true :=
  lexLE_trans h2 h1

theorem mem_insertDesc {y x : String} : ∀ {l : List String}, y ∈ insertDesc x l →
    y = x ∨ y ∈ l := by
  intro l
  induction l with
  | nil => intro h; simpa [insertDesc] using h
  | cons z zs ih =>
    intro h
    unfold insertDesc at h
    split at h
    · rcases List.mem_cons.mp h with h1 | h1
      · exact Or.inr (by simp [h1])
      · rcases ih h1 with h2 | h2
        · exact Or.inl h2
        · exact Or.inr (List.mem_cons_of_mem z h2)
    · rcases List.mem_cons.mp h with h1 | h1
      · exact Or.inl h1
      · exact Or.inr h1

theorem pairwise_insertDesc {x : String} :
    ∀ {l : List String}, l.Pairwise (fun a b => verGE a b = true) →
      (insertDesc x l).Pairwise (fun a b => verGE a b = true) := by
  intro l
  induction l with
  | nil => intro _; simp [insertDesc]
  | cons y ys ih =>
    intro h
    rw [List.pairwise_cons] at h
    unfold insertDesc
    split
    · next hyx =>
      rw [List.pairwise_cons]
      refine ⟨?_, ih h.2⟩
      intro z hz
      rcases mem_insertDesc hz with h1 | h1
      · rw [h1]; exact hyx
      · exact h.1 z h1
    · next hyx =>
      have hxy : verGE x y = true := by
        rcases verGE_total y x with h1 | h1
        · exact absurd h1 hyx
        · exact h1
      rw [List.pairwise_cons]
      refine ⟨?_, List.pairwise_cons.mpr h⟩
      intro z hz
      rcases List.mem_cons.mp hz with h1 | h1
      · rw [h1]; exact hxy
      · exact verGE_trans hxy (h.1 z h1)

theorem sortDescV_pairwise (l : List String) :
    (sortDescV l).Pairwise (fun a b => verGE a b = true) := by
  unfold sortDescV
  have : ∀ (l' : List String) (acc : List String),
      acc.Pairwise (fun a b => verGE a b = true) →
      (l'.foldl (fun acc' x => insertDesc x acc') acc).Pairwise
        (fun a b => verGE a b = true) := by
    intro l'
    induction l' with
    | nil => intro acc h; exact h
    | cons x xs ih => intro acc h; exact ih _ (pairwise_insertDesc h)
  exact this l [] (by simp)

/-! ## Report-key lemmas (for the key-containment invariant) -/

theorem pass1_foldl_keys {idx : Index} {q : String} :
    ∀ (l : DepMap) (st : Report × List GraphEntry),
      q ∈ keysOf (List.foldl (pass1Step idx) st l).1 →
      q ∈ keysOf st.1 ∨ q ∈ keysOf l := by
  intro l
  induction l with
  | nil => intro st h; exact Or.inl h
  | cons e tl ih =>
    intro st h
    rw [List.foldl_cons] at h
    rcases ih _ h with h1 | h1
    · rcases hc : pass1Classify idx e.1 e.2 with _ | m | _ | t <;>
        simp only [pass1Step, hc] at h1
      · exact Or.inl h1
      · rcases mem_keysOf_dInsert _ _ h1 with h2 | h2
        · exact Or.inr (by simp [keysOf, h2])
        · exact Or.inl h2
      · rcases mem_keysOf_dInsert _ _ h1 with h2 | h2
        · exact Or.inr (by simp [keysOf, h2])
        · exact Or.inl h2
      · exact Or.inl h1
    · exact Or.inr (by simp [keysOf] at h1 ⊢; exact Or.inr h1)

theorem pass2Classify_nskip_mem {idx : Index} {deps : DepMap} {dn : String}
    {sp : List String} (h : pass2Classify idx deps dn sp ≠ P2Res.skip) :
    dn ∈ keysOf deps := by
  unfold pass2Classify at h
  split at h
  · exact absurd rfl h
  · rcases hl : dLookup dn deps with _ | ds
    · rw [hl] at h
      exact absurd rfl h
    · exact dLookup_some_mem hl

theorem pass2Inner_keys {idx : Index} {deps : DepMap} {pkg q : String} {conf : Report}
    {e : String × List String}
    (h : q ∈ keysOf (pass2Inner idx deps pkg conf e)) :
    q ∈ keysOf conf ∨ q ∈ keysOf deps := by
  rcases hc : pass2Classify idx deps e.1 e.2 with _ | m | _ | _ <;>
    simp only [pass2Inner, hc] at h
  · exact Or.inl h
  all_goals {
    unfold dUpdateRec at h
    rcases mem_keysOf_dInsert _ _ h with h1 | h1
    · subst h1
      exact Or.inr (pass2Classify_nskip_mem (by rw [hc]; intro hn; cases hn))
    · exact Or.inl h1 }

theorem pass2_inner_foldl_keys {idx : Index} {deps : DepMap} {pkg q : String} :
    ∀ (es : DepMap) (conf : Report),
      q ∈ keysOf (es.foldl (pass2Inner idx deps pkg) conf) →
      q ∈ keysOf conf ∨ q ∈ keysOf deps := by
  intro es
  induction es with
  | nil => intro conf h; exact Or.inl h
  | cons e tl ih =>
    intro conf h
    rw [List.foldl_cons] at h
    rcases ih _ h with h1 | h1
    · exact pass2Inner_keys h1
    · exact Or.inr h1

theorem pass2_foldl_keys {idx : Index} {deps : DepMap} {q : String} :
    ∀ (gl : List GraphEntry) (conf : Report),
      q ∈ keysOf (gl.foldl (fun conf' ge =>
        if ge.1 = "" then conf' else ge.2.2.foldl (pass2Inner idx deps ge.1) conf') conf) →
      q ∈ keysOf conf ∨ q ∈ keysOf deps := by
  intro gl
  induction gl with
  | nil => intro conf h; exact Or.inl h
  | cons ge tl ih =>
    intro conf h
    rw [List.foldl_cons] at h
    rcases ih _ h with h1 | h1
    · split at h1
      · exact Or.inl h1
      · exact pass2_inner_foldl_keys _ _ h1
    · exact Or.inr h1

deriving instance DecidableEq for Except

/-! ## Concrete fixtures (package names, constraints, indexes) -/

def requestsS : String := "requests"

def urllib3S : String := "urllib3"

def pySocksS : String := "PySocks"

def pkgXS : String := "pkgx"

def nonexistS : String := "nonexistent-package"

def netErrS : String := "connection refused"

def geq2250 : String := ">=2.25.0"

def geq1260 : String := ">=1.26.0"

def eq1240 : String := "==1.24.0"

def geq10 : String := ">=1.0"

def geq156 : String := ">=1.5.6"

def badSpecS : String := "not a spec"

def declUrllib3 : String := "urllib3>=1.26.0"

def declPySocksExtra : String := "PySocks>=1.5.6 ; extra == \"socks\""

def v2250S : String := "2.25.0"

def v2260S : String := "2.26.0"

def v1240S : String := "1.24.0"

def v1265S : String := "1.26.5"

def v10S : String := "1.0"

def v100S : String := "1.0.0"

/-- A small index mirroring the spec's `requests`/`urllib3` scenarios:
`requests` declares `urllib3>=1.26.0`, any other name fails to fetch. -/
def idxMain : Index := fun p =>
  if p = requestsS then Except.ok ⟨[v2250S, v2260S], [declUrllib3]⟩
  else if p = urllib3S then Except.ok ⟨[v1240S, v1265S], []⟩
  else Except.error netErrS

/-- Like `idxMain` but `urllib3` has no published versions. -/
def idxNoRel : Index := fun p =>
  if p = requestsS then Except.ok ⟨[v2250S, v2260S], [declUrllib3]⟩
  else if p = urllib3S then Except.ok ⟨[], []⟩
  else Except.error netErrS

/-- An index whose one package declares an extra-gated requirement. -/
def idxExtra : Index := fun p =>
  if p = requestsS then Except.ok ⟨[v2250S], [declPySocksExtra]⟩
  else Except.error netErrS

/-- An index publishing two distinct version strings that parse to the
same version (`1.0` and `1.0.0`). -/
def idxDup : Index := fun p =>
  if p = pkgXS then Except.ok ⟨[v10S, v100S], []⟩
  else Except.error netErrS

def depsConflicting : DepMap := [(requestsS, [geq2250]), (urllib3S, [eq1240])]

def depsC1 : DepMap := [(requestsS, [geq2250]), (urllib3S, [geq1260])]

def depsC4 : DepMap := [(urllib3S, [geq10])]

def depsC10 : DepMap := [(requestsS, [geq10, badSpecS])]

/-! ## Claim C1 -/

/-- C1 counterexample: with `urllib3` requested, declared by `requests`,
and published with no versions at all, both satisfying-version sets are
empty (so the claim's disjointness hypothesis holds), yet
`conflicts['urllib3']['requests']` is `['No releases available']`, not the
declared constraint list `['>=1.26.0']`. -/
theorem c1_counterexample :
    (urllib3S, [geq1260]) ∈ getPackageDependencies idxNoRel requestsS ∧
    idxNoRel urllib3S = Except.ok ⟨[], []⟩ ∧
    lookupPair urllib3S requestsS (findConflicts idxNoRel none depsC1) =
      some (CVal.l [noReleasesMsg]) ∧
    CVal.l [noReleasesMsg] ≠ CVal.l [geq1260] := by
  refine ⟨by decide, by decide, by decide, by decide⟩

/-- C1 (amended): if a retained package `P` (nonblank, nonempty request
constraints, successful fetch, some published version, nonempty direct
compatible set, nonempty declared-dependency map) declares `depSpecs` on
a request package `depName`, and `depName`'s fetch succeeds with at least
one published version, and the sets of its published versions compatible
with the request's constraints and with `depSpecs` are disjoint or either
is empty, then the report satisfies
`conflicts[depName][P] = depSpecs`.  (When `depName` has no published
version at all, the code records `['No releases available']` instead.) -/
theorem c1_cross_conflict_pins_declared_constraints
    {idx : Index} {deps : DepMap} {P depName : String}
    {pspecs depSpecs dspecs : List String} {mP mD : PkgMeta}
    (hu : uniqKeys deps)
    (hPmem : (P, pspecs) ∈ deps)
    (hP : P ≠ "") (hps : pspecs ≠ [])
    (hfP : idx P = Except.ok mP) (hrelP : mP.releases ≠ [])
    (hcompP : checkVersionCompatibility mP.releases pspecs ≠ [])
    (hdecl : (depName, depSpecs) ∈ getPackageDependencies idx P)
    (hdn : depName ≠ "") (hds : depSpecs ≠ [])
    (hdir : dLookup depName deps = some dspecs) (hdir2 : dspecs ≠ [])
    (hfD : idx depName = Except.ok mD) (hrelD : mD.releases ≠ [])
    (hdisj : checkVersionCompatibility mD.releases dspecs = [] ∨
             checkVersionCompatibility mD.releases depSpecs = [] ∨
             (checkVersionCompatibility mD.releases dspecs).filter
               (fun v => (checkVersionCompatibility mD.releases depSpecs).contains v) = []) :
    lookupPair depName P (findConflicts idx none deps) = some (CVal.l depSpecs) := by
  have hfP' : fetchMetadata idx P = Except.ok mP := by
    unfold fetchMetadata
    rw [if_neg hP, hfP]
  have hfD' : fetchMetadata idx depName = Except.ok mD := by
    unfold fetchMetadata
    rw [if_neg hdn, hfD]
  have htrans : getPackageDependencies idx P ≠ [] := by
    intro h
    rw [h] at hdecl
    exact absurd hdecl (by simp)
  have hcls := pass1Classify_retain hP hps hfP' hrelP hcompP htrans
  have hge : graphEntry idx (P, pspecs) = some (P, pspecs, getPackageDependencies idx P) := by
    unfold graphEntry
    dsimp only
    rw [hcls]
  rw [findConflicts_none]
  unfold findConflictsCore pass2
  rw [pass1_graph]
  have hmemG : (P, pspecs, getPackageDependencies idx P) ∈ deps.filterMap (graphEntry idx) :=
    List.mem_filterMap.mpr ⟨(P, pspecs), hPmem, hge⟩
  obtain ⟨gpre, gpost, hgeq, _, hgpost⟩ := uniqKeys_split (graphKeys_uniq hu) hmemG
  rw [hgeq, List.foldl_append, List.foldl_cons]
  rw [pass2_foldl_preserve ⟨mD, hfD'⟩ gpost _ hgpost]
  dsimp only
  rw [if_neg hP]
  obtain ⟨tpre, tpost, hteq, _, htpost⟩ :=
    uniqKeys_split (getPackageDependencies_uniq idx P) hdecl
  rw [hteq, List.foldl_append, List.foldl_cons]
  rw [foldl_pass2Inner_preserve tpost _ (fun e he hdn' => absurd hdn' (htpost e he))]
  have hpin := pass2Classify_pin hdn hds hdir hdir2 hfD' hrelD hdisj
  unfold pass2Inner
  dsimp only
  rw [hpin]
  exact lookupPair_dUpdateRec_self _ _ _ _

/-- C1 witness: the spec's conflicting scenario
`{requests: ['>=2.25.0'], urllib3: ['==1.24.0']}`. -/
theorem c1_witness :
    lookupPair urllib3S requestsS (findConflicts idxMain none depsConflicting) =
      some (CVal.l [geq1260]) :=
  @c1_cross_conflict_pins_declared_constraints idxMain depsConflicting requestsS urllib3S
    [geq2250] [geq1260] [eq1240] ⟨[v2250S, v2260S], [declUrllib3]⟩ ⟨[v1240S, v1265S], []⟩
    (by decide) (by decide) (by decide) (by decide) (by decide) (by decide) (by decide)
    (by decide) (by decide) (by decide) (by decide) (by decide) (by decide) (by decide)
    (by decide)

/-! ## Claim C2 -/

/-- C2 (code bug): the requirement string
`PySocks>=1.5.6 ; extra == "socks"` contains an explicit `extra` marker,
yet `_get_package_dependencies` keeps it: the `'extra =='` test runs
after the string has been cut at `;`, so it can never fire for a
well-formed marker, and `PySocks` appears in the returned map. -/
theorem c2_extra_marker_requirement_included :
    containsSub extraMark.toList declPySocksExtra.toList = true ∧
    getPackageDependencies idxExtra requestsS = [(pySocksS, [geq156])] ∧
    dLookup pySocksS (getPackageDependencies idxExtra requestsS) = some [geq156] := by
  refine ⟨by decide, by decide, by decide⟩

/-! ## Claim C3 -/

/-- C3 counterexample: a conflict record with no constraints makes
`get_compatible_versions` raise (`Invalid conflict data` when empty,
`No valid version specifications found in conflict data` when nonempty
but constraint-free) — it does not return the top-5 newest versions
(`['1.26.5', '1.24.0']` here). -/
theorem c3_counterexample :
    getCompatibleVersions idxMain none urllib3S [] = Except.error invalidConflictMsg ∧
    getCompatibleVersions idxMain none urllib3S [(pkgXS, [])] = Except.error noSpecsMsg ∧
    (Except.error noSpecsMsg : Except String (List String)) ≠ Except.ok [v1265S, v1240S] := by
  refine ⟨by decide, by decide, by decide⟩

/-- C3 (amended): when the conflict record carries no constraints at
all, `get_compatible_versions` raises a `DependencyError` —
`Invalid conflict data` for an empty record, and
`No valid version specifications found in conflict data` for a nonempty
record whose values contain no constraint strings. -/
theorem c3_no_constraints_raises (idx : Index) (p : String) (conflict : DepMap) (m : PkgMeta)
    (hp : p ≠ "") (hidx : idx p = Except.ok m) (hrel : m.releases ≠ [])
    (hflat : collectSpecs conflict = []) :
    getCompatibleVersions idx none p conflict =
      Except.error (if conflict = [] then invalidConflictMsg else noSpecsMsg) := by
  unfold getCompatibleVersions
  rw [if_neg hp]
  by_cases hc : conflict = []
  · rw [if_pos hc, if_pos hc]
  · rw [if_neg hc, if_neg hc]
    dsimp only
    have hf' : fetchMetadata idx p = Except.ok m := by
      unfold fetchMetadata
      rw [if_neg hp, hidx]
    rw [hf']
    dsimp only
    rw [if_neg hrel, if_pos hflat]

/-- C3 witness: a nonempty, constraint-free conflict record. -/
theorem c3_witness :
    getCompatibleVersions idxMain none urllib3S [(pkgXS, [])] =
      Except.error (if ([(pkgXS, [])] : DepMap) = [] then invalidConflictMsg else noSpecsMsg) :=
  c3_no_constraints_raises idxMain urllib3S [(pkgXS, [])] ⟨[v1240S, v1265S], []⟩
    (by decide) (by decide) (by decide) (by decide)

/-! ## Claim C4 -/

/-- C4 counterexample: a requested package with no published versions is
recorded as `conflicts[pkg] = {'error': 'No releases available'}` — an
error diagnostic, with no `direct` entry and no constraints-list value. -/
theorem c4_counterexample :
    findConflicts idxNoRel none depsC4 = [(urllib3S, [(errorKeyS, CVal.s noReleasesMsg)])] ∧
    dLookup directKeyS [(errorKeyS, CVal.s noReleasesMsg)] = (none : Option CVal) ∧
    CVal.s noReleasesMsg ≠ CVal.l [] := by
  refine ⟨by decide, by decide, by decide⟩

/-- C4 (amended): a requested package whose fetch succeeds but whose
release set is empty is recorded as
`conflicts[pkg]['error'] = 'No releases available'` (provided no request
package is itself named `error`, which could overwrite that entry in
pass 2). -/
theorem c4_no_versions_error_entry
    {idx : Index} {deps : DepMap} {p : String} {specs : List String} {m : PkgMeta}
    (hu : uniqKeys deps) (hmem : (p, specs) ∈ deps) (hp : p ≠ "") (hs : specs ≠ [])
    (hidx : idx p = Except.ok m) (hrel : m.releases = [])
    (hek : errorKeyS ∉ keysOf deps) :
    lookupPair p errorKeyS (findConflicts idx none deps) = some (CVal.s noReleasesMsg) := by
  have hf' : fetchMetadata idx p = Except.ok m := by
    unfold fetchMetadata
    rw [if_neg hp, hidx]
  exact @findConflicts_pass1_entry idx deps p errorKeyS specs
    [(errorKeyS, CVal.s noReleasesMsg)] (CVal.s noReleasesMsg) hu hmem
    (by rw [pass1Classify_norel hp hs hf' hrel]; rfl) (by decide) ⟨m, hf'⟩ hek

/-- C4 witness: `urllib3` with an empty release list. -/
theorem c4_witness :
    lookupPair urllib3S errorKeyS (findConflicts idxNoRel none depsC4) =
      some (CVal.s noReleasesMsg) :=
  @c4_no_versions_error_entry idxNoRel depsC4 urllib3S [geq10] ⟨[], []⟩
    (by decide) (by decide) (by decide) (by decide) (by decide) (by decide) (by decide)

/-! ## Claim C5 -/

/-- C5 counterexample: with `1.0` and `1.0.0` both published — distinct
strings whose parsed versions are equal — `get_compatible_versions`
returns both, so consecutive entries are not strictly descending. -/
theorem c5_counterexample :
    getCompatibleVersions idxDup none pkgXS [(requestsS, [geq10])] = Except.ok [v10S, v100S] ∧
    verKey v10S = verKey v100S ∧ v10S ≠ v100S := by
  refine ⟨by decide, by decide, by decide⟩

/-- C5 (amended): every successful (uncached) result of
`get_compatible_versions` has at most 5 entries and is non-increasing by
parsed version; consecutive entries can compare equal when two distinct
published strings parse to the same version. -/
theorem c5_at_most_five_sorted_desc (idx : Index) (p : String) (conflict : DepMap)
    (res : List String) (h : getCompatibleVersions idx none p conflict = Except.ok res) :
    res.length ≤ 5 ∧ res.Pairwise (fun a b => verGE a b = true) := by
  unfold getCompatibleVersions at h
  split at h
  · simp at h
  · split at h
    · simp at h
    · dsimp only at h
      rcases hf : fetchMetadata idx p with e | m <;> rw [hf] at h <;> dsimp only at h
      · simp at h
      · split at h
        · simp at h
        · split at h
          · simp at h
          · split at h
            · simp only [Except.ok.injEq] at h
              subst h
              exact ⟨by simp, by simp⟩
            · simp only [Except.ok.injEq] at h
              subst h
              refine ⟨?_, ?_⟩
              · rw [List.length_take]
                exact Nat.min_le_left _ _
              · exact List.Pairwise.sublist (List.take_sublist _ _) (sortDescV_pairwise _)

/-- C5 witness: the two-version result of `c5_counterexample` is within
the bound and non-increasing. -/
theorem c5_witness :
    ([v10S, v100S] : List String).length ≤ 5 ∧
    ([v10S, v100S] : List String).Pairwise (fun a b => verGE a b = true) :=
  c5_at_most_five_sorted_desc idxDup pkgXS [(requestsS, [geq10])] [v10S, v100S] (by decide)

/-! ## Claim C6 -/

/-- C6: when the metadata fetch for a package fails,
`get_compatible_versions` raises the `DependencyError` carrying the
package name and cause, while pass 1 of `find_conflicts` records
`conflicts[pkg] = {'error': msg}` and continues with the remaining
packages of the batch. -/
theorem c6_fetch_failure_policy (idx : Index) (pkg cause : String) (specs : List String)
    (conflict rest : DepMap) (c : Report) (g : List GraphEntry)
    (hp : pkg ≠ "") (hidx : idx pkg = Except.error cause) (hc : conflict ≠ [])
    (hs : specs ≠ []) :
    getCompatibleVersions idx none pkg conflict = Except.error (mkFetchMsg pkg cause) ∧
    List.foldl (pass1Step idx) (c, g) ((pkg, specs) :: rest) =
      List.foldl (pass1Step idx) (dInsert pkg [(errorKeyS, CVal.s (mkFetchMsg pkg cause))] c, g)
        rest := by
  have hf' : fetchMetadata idx pkg = Except.error (mkFetchMsg pkg cause) := by
    unfold fetchMetadata
    rw [if_neg hp, hidx]
  constructor
  · unfold getCompatibleVersions
    rw [if_neg hp, if_neg hc]
    dsimp only
    rw [hf']
  · rw [List.foldl_cons]
    have hcls := pass1Classify_fetchErr hp hs hidx
    simp only [pass1Step, hcls]

/-- C6 witness: a nonexistent package in `idxMain`. -/
theorem c6_witness :
    getCompatibleVersions idxMain none nonexistS [(pkgXS, [geq10])] =
      Except.error (mkFetchMsg nonexistS netErrS) ∧
    List.foldl (pass1Step idxMain) ([], []) ((nonexistS, [geq10]) :: depsC4) =
      List.foldl (pass1Step idxMain)
        (dInsert nonexistS [(errorKeyS, CVal.s (mkFetchMsg nonexistS netErrS))] [], []) depsC4 :=
  c6_fetch_failure_policy idxMain nonexistS netErrS [geq10] [(pkgXS, [geq10])] depsC4 [] []
    (by decide) (by decide) (by decide) (by decide)

/-! ## Claim C7 -/

/-- C7 counterexample: for a package whose fetch fails,
`_get_package_metadata` raises, but `_get_package_dependencies` returns
the plain empty map — the error does not propagate to its caller. -/
theorem c7_counterexample :
    fetchMetadata idxMain nonexistS = Except.error (mkFetchMsg nonexistS netErrS) ∧
    getPackageDependencies idxMain nonexistS = [] := by
  refine ⟨by decide, by decide⟩

/-- C7 (amended): on a fetch failure, `_get_package_metadata` raises a
`DependencyError` carrying the package name and cause, and
`_get_package_dependencies` catches it and returns the empty dependency
map to its caller instead of propagating. -/
theorem c7_metadata_error_swallowed (idx : Index) (pkg cause : String)
    (hp : pkg ≠ "") (hidx : idx pkg = Except.error cause) :
    fetchMetadata idx pkg = Except.error (mkFetchMsg pkg cause) ∧
    getPackageDependencies idx pkg = [] := by
  have hf' : fetchMetadata idx pkg = Except.error (mkFetchMsg pkg cause) := by
    unfold fetchMetadata
    rw [if_neg hp, hidx]
  refine ⟨hf', ?_⟩
  unfold getPackageDependencies
  rw [if_neg hp, hf']

/-- C7 witness: the nonexistent package of `idxMain`. -/
theorem c7_witness :
    fetchMetadata idxMain nonexistS = Except.error (mkFetchMsg nonexistS netErrS) ∧
    getPackageDependencies idxMain nonexistS = [] :=
  c7_metadata_error_swallowed idxMain nonexistS netErrS (by decide) (by decide)

/-! ## Claim C8 -/

def rep8 : Report := [(urllib3S, [(directKeyS, CVal.l [eq1240])])]

/-- C8 counterexample: an empty report is falsy, so `store_conflicts`
refuses to store it and the immediate `get_conflicts` returns absent
(`None`), not a report equal to the stored one. -/
theorem c8_counterexample :
    getConflictsCache 0 depsC4 (storeConflicts 0 depsC4 [] ⟨[]⟩) = none ∧
    (none : Option Report) ≠ some ([] : Report) := by
  refine ⟨by decide, by decide⟩

/-- C8 (amended): for every nonempty request and nonempty report,
`store_conflicts` followed by `get_conflicts` within the expiry window
returns the stored report. -/
theorem c8_cache_roundtrip (t1 t2 : Int) (deps : DepMap) (report : Report) (st : CacheState)
    (hd : deps ≠ []) (hr : report ≠ []) (hexp : t2 - t1 ≤ cacheExpiry) :
    getConflictsCache t2 deps (storeConflicts t1 deps report st) = some report := by
  unfold storeConflicts getConflictsCache
  rw [if_neg hd, if_neg (show ¬(deps = [] ∨ report = []) by simp [hd, hr])]
  dsimp only
  rw [dLookup_dInsert_self]
  dsimp only
  rw [if_pos hexp]

/-- C8 witness: a concrete round trip 50 seconds after storing. -/
theorem c8_witness :
    getConflictsCache 100 depsC4 (storeConflicts 50 depsC4 rep8 ⟨[]⟩) = some rep8 :=
  c8_cache_roundtrip 50 100 depsC4 rep8 ⟨[]⟩ (by decide) (by decide) (by decide)

/-! ## Claim C9 -/

/-- C9: every key of the report `find_conflicts` returns is a key of the
request; packages that appear only as transitive dependencies are never
flagged. -/
theorem c9_report_keys_subset (idx : Index) (deps : DepMap) (q : String)
    (h : q ∈ keysOf (findConflicts idx none deps)) : q ∈ keysOf deps := by
  rw [findConflicts_none] at h
  unfold findConflictsCore pass2 at h
  rcases pass2_foldl_keys _ _ h with h1 | h1
  · unfold pass1 at h1
    rcases pass1_foldl_keys _ _ h1 with h2 | h2
    · simp [keysOf] at h2
    · exact h2
  · exact h1

/-- C9 witness: the flagged `urllib3` is a key of the request. -/
theorem c9_witness : urllib3S ∈ keysOf depsConflicting :=
  c9_report_keys_subset idxMain depsConflicting urllib3S (by decide)

/-! ## Claim C10 -/

/-- C10: `_check_version_compatibility` is total by construction in this
embedding, and returns the empty set whenever the comma-joined constraint
strings fail to parse as a specifier set; consequently a request entry
with any unparsable constraint clause (whose fetch succeeds and has
published versions) is recorded as a `direct` conflict in the report. -/
theorem c10_unparsable_specs_conservative :
    (∀ (versions specs : List String), parseSpecSet specs = none →
      checkVersionCompatibility versions specs = []) ∧
    (∀ (idx : Index) (deps : DepMap) (p : String) (specs : List String) (m : PkgMeta),
      uniqKeys deps → (p, specs) ∈ deps → p ≠ "" → specs ≠ [] →
      idx p = Except.ok m → m.releases ≠ [] → parseSpecSet specs = none →
      directKeyS ∉ keysOf deps →
      lookupPair p directKeyS (findConflicts idx none deps) = some (CVal.l specs)) := by
  have hempty : ∀ (versions specs : List String), parseSpecSet specs = none →
      checkVersionCompatibility versions specs = [] := by
    intro versions specs h
    unfold checkVersionCompatibility
    split
    · rfl
    · rw [h]
  refine ⟨hempty, ?_⟩
  intro idx deps p specs m hu hmem hp hs hidx hrel hparse hdk
  have hf' : fetchMetadata idx p = Except.ok m := by
    unfold fetchMetadata
    rw [if_neg hp, hidx]
  exact @findConflicts_pass1_entry idx deps p directKeyS specs
    [(directKeyS, CVal.l specs)] (CVal.l specs) hu hmem
    (by rw [pass1Classify_direct hp hs hf' hrel (hempty _ _ hparse)]; rfl)
    (by simp [dLookup]) ⟨m, hf'⟩ hdk

/-- C10 witness: `requests` requested with the unparsable clause
`not a spec` alongside a satisfiable one. -/
theorem c10_witness :
    lookupPair requestsS directKeyS (findConflicts idxMain none depsC10) =
      some (CVal.l [geq10, badSpecS]) :=
  c10_unparsable_specs_conservative.2 idxMain depsC10 requestsS [geq10, badSpecS]
    ⟨[v2250S, v2260S], [declUrllib3]⟩ (by decide) (by decide) (by decide) (by decide)
    (by decide) (by decide) (by decide) (by decide)

end DepSimplify
